import Mathlib

/-!
Verification of the LK009 idle-window scheduler (runLK009.py).

Time is modelled as rational seconds on the UTC timeline, with the origin
placed at an MJD midnight (so the MJD of an instant is the floor of the
second count divided by 86400, and whole-minute flooring is flooring to a
multiple of 60).  Durations are rational seconds.

The ephemeris geometry (transit computation via pyephem) is an external
collaborator per the design: each target carries the adapter's answer as
an optional transit time (already rounded to the second as in
Pulsar.get_start_stop); a missing value models ephem.NeverUp.
-/

/-- A catalog target (class Pulsar, runLK009.py lines 34-163).  The name is an
opaque identifier; right ascension and declination are consumed only by the
external geometry adapter and are therefore folded into the adapter's answer,
the `transit` field. -/
structure Pulsar where
  name : ℕ
  duration : ℚ
  cadence : ℤ
  last_mjd : ℤ
  transit : Option ℚ
deriving DecidableEq

/-- MJD day number of an instant (datetime_to_mjdmpm, first component). -/
def mjdOf (t : ℚ) : ℤ := ⌊t / 86400⌋

/-- Pulsar.get_start_stop (lines 110-139) applied to the adapter's transit
time: the observation is centred on transit; with padding, half of the
10-second total session padding is added on each side. -/
def get_start_stop (duration tr : ℚ) (padding : Bool) : ℚ × ℚ :=
  if padding then (tr - duration / 2 - 5, tr + duration / 2 + 5)
  else (tr - duration / 2, tr + duration / 2)

/-- Pulsar.should_run (lines 154-163). -/
def should_run (p : Pulsar) (start : ℚ) : Bool :=
  decide (p.last_mjd + p.cadence ≤ mjdOf start) && decide (0 < p.cadence)

/-- Pulsar.can_run (lines 141-152): the padded interval must fit in the
window; a never-up target (no transit) cannot run. -/
def can_run (p : Pulsar) (start stop : ℚ) : Bool :=
  match p.transit with
  | none => false
  | some tr =>
    let i := get_start_stop p.duration tr true
    decide (start ≤ i.1) && decide (i.2 ≤ stop)

/-- The four-disjunct conflict test of lines 260-261, with `c` the candidate
interval (css) and `p` a previously admitted interval (pss). -/
def overlap4 (c p : ℚ × ℚ) : Bool :=
  (decide (p.1 ≤ c.1) && decide (c.1 ≤ p.2)) ||
  (decide (p.1 ≤ c.2) && decide (c.2 ≤ p.2)) ||
  (decide (c.1 ≤ p.1) && decide (p.1 ≤ c.2)) ||
  (decide (c.1 ≤ p.2) && decide (p.2 ≤ c.2))

/-- An admitted target: the body, the transit time the geometry adapter
returned for it (it passed can_run, so a transit exists), and the stored
unpadded `final` interval (line 268). -/
structure AdmEntry where
  body : Pulsar
  transit : ℚ
  final : ℚ × ℚ
deriving DecidableEq

/-- The padded interval an admitted target contributes to the conflict test
(line 258 recomputes get_start_stop with default padding=True). -/
def paddedOf (a : AdmEntry) : ℚ × ℚ := get_start_stop a.body.duration a.transit true

/-- Working state of the admission loop: admitted list in acceptance order,
remaining capacity budget (rec_secs_possible) and allocated total. -/
structure AdmitState where
  admitted : List AdmEntry
  budget : ℚ
  allocated : ℚ
deriving DecidableEq

/-- One iteration of the admission loop (lines 242-271): reject on
insufficient budget, not cadence-due, not runnable, or padded-interval
conflict with an already-admitted target; otherwise admit, storing the
unpadded final interval and decrementing the budget. -/
def admitStep (start stop : ℚ) (st : AdmitState) (b : Pulsar) : AdmitState :=
  if st.budget ≤ b.duration then st
  else if should_run b start = false then st
  else if can_run b start stop = false then st
  else
    match b.transit with
    | none => st
    | some tr =>
      if st.admitted.any (fun a => overlap4 (get_start_stop b.duration tr true) (paddedOf a)) then st
      else
        { admitted := st.admitted ++ [⟨b, tr, get_start_stop b.duration tr false⟩],
          budget := st.budget - b.duration,
          allocated := st.allocated + b.duration }

/-- The full admission loop over the (already rank-sorted) catalog. -/
def runAdmission (start stop budget : ℚ) (catalog : List Pulsar) : AdmitState :=
  catalog.foldl (admitStep start stop) ⟨[], budget, 0⟩

/-- Concrete target: one-hour observation transiting at 12:00 UTC of day 0. -/
def psr1 : Pulsar := ⟨1, 3600, 1, -5, some 43200⟩

/-- Concrete target whose transit is 3608 s after psr1's: the unpadded
intervals are 8 s apart, but the padded intervals overlap by 2 s. -/
def psr2 : Pulsar := ⟨2, 3600, 1, -5, some 46808⟩

/-- Admission state after processing the one-element catalog [psr1]. -/
def st1 : AdmitState := runAdmission 0 86400 1000000 [psr1]

/-- Separation of two admitted targets' padded intervals, as guaranteed by
the conflict test. -/
def paddedSep (a b : AdmEntry) : Prop :=
  (paddedOf a).2 < (paddedOf b).1 ∨ (paddedOf b).2 < (paddedOf a).1

/-- Loop invariant of the admission loop: padded intervals of admitted
targets are pairwise separated, and each stored final interval is the
unpadded one recomputed from the stored transit. -/
def AdmInv (st : AdmitState) : Prop :=
  st.admitted.Pairwise paddedSep ∧
  ∀ a ∈ st.admitted, a.final = get_start_stop a.body.duration a.transit false

theorem overlap4_false_sep {c p : ℚ × ℚ} (h : overlap4 c p = false) :
    p.2 < c.1 ∨ c.2 < p.1 := by
  simp only [overlap4, Bool.or_eq_false_iff, Bool.and_eq_false_iff,
    decide_eq_false_iff_not, not_le] at h
  by_contra hcon
  push_neg at hcon
  obtain ⟨h1, h2⟩ := hcon
  rcases h.1.1.1 with h' | h'
  · rcases h.1.1.2 with h'' | h'' <;> rcases h.1.2 with h3 | h3 <;> linarith
  · rcases h.1.2 with h3 | h3 <;> linarith

theorem overlap4_true_of_overlap {c p : ℚ × ℚ}
    (h1 : c.1 ≤ p.2) (h2 : p.1 ≤ c.2) : overlap4 c p = true := by
  simp only [overlap4, Bool.or_eq_true, Bool.and_eq_true, decide_eq_true_eq]
  rcases le_or_lt p.1 c.1 with h | h
  · exact Or.inl (Or.inl (Or.inl ⟨h, h1⟩))
  · exact Or.inl (Or.inr ⟨le_of_lt h, h2⟩)

theorem overlap_of_overlap4_true {c p : ℚ × ℚ} (hc : c.1 ≤ c.2) (hp : p.1 ≤ p.2)
    (h : overlap4 c p = true) : c.1 ≤ p.2 ∧ p.1 ≤ c.2 := by
  simp only [overlap4, Bool.or_eq_true, Bool.and_eq_true, decide_eq_true_eq] at h
  rcases h with ((⟨a, b⟩ | ⟨a, b⟩) | ⟨a, b⟩) | ⟨a, b⟩ <;> constructor <;> linarith

/-- Per-beam cumulative load for the fixed beam set {2, 3, 4} (line 275). -/
structure BeamLoad where
  b2 : ℚ
  b3 : ℚ
  b4 : ℚ
deriving DecidableEq

/-- Python tuple comparison on (load, beam id) pairs, as used by sorted(). -/
def pairLe (p q : ℚ × ℕ) : Bool :=
  decide (p.1 < q.1) || (decide (p.1 = q.1) && decide (p.2 ≤ q.2))

/-- Insertion into a sorted list of (load, beam) pairs. -/
def insertP (p : ℚ × ℕ) : List (ℚ × ℕ) → List (ℚ × ℕ)
  | [] => [p]
  | q :: qs => if pairLe p q then p :: q :: qs else q :: insertP p qs

/-- sorted([(load[b], b) for b in load]) of line 277: ascending by load,
ties broken by beam identifier. -/
def sortPairs : List (ℚ × ℕ) → List (ℚ × ℕ)
  | [] => []
  | p :: ps => insertP p (sortPairs ps)

/-- load[b] lookup. -/
def getLoad (l : BeamLoad) (b : ℕ) : ℚ :=
  if b = 2 then l.b2 else if b = 3 then l.b3 else if b = 4 then l.b4 else 0

/-- load[b] += d update. -/
def addLoad (l : BeamLoad) (b : ℕ) (d : ℚ) : BeamLoad :=
  if b = 2 then { l with b2 := l.b2 + d }
  else if b = 3 then { l with b3 := l.b3 + d }
  else if b = 4 then { l with b4 := l.b4 + d }
  else l

/-- One step of the beam assignment loop (lines 276-280): take the two
beams of least load (first two of the sorted pair list), store the pair
sorted ascending, and add the duration to both chosen beams' loads. -/
def beamAssign (l : BeamLoad) (d : ℚ) : (ℕ × ℕ) × BeamLoad :=
  let beams := (sortPairs [(l.b2, 2), (l.b3, 3), (l.b4, 4)]).map Prod.snd
  let bm0 := beams.headI
  let bm1 := beams.tail.headI
  ((min bm0 bm1, max bm0 bm1), addLoad (addLoad l bm0 d) bm1 d)

/-- The beam assignment loop over the durations of the admitted targets in
start order, returning the stored beam pairs and the final loads. -/
def beamBalance : List ℚ → BeamLoad → List (ℕ × ℕ) × BeamLoad
  | [], l => ([], l)
  | d :: ds, l =>
    let r := beamAssign l d
    let rest := beamBalance ds r.2
    (r.1 :: rest.1, rest.2)

/-- Loads after processing a list of durations, starting from the all-zero
load map of line 275. -/
def loadAfter (ds : List ℚ) : BeamLoad := (beamBalance ds ⟨0, 0, 0⟩).2

def maxLoad (l : BeamLoad) : ℚ := max (max l.b2 l.b3) l.b4

def minLoad (l : BeamLoad) : ℚ := min (min l.b2 l.b3) l.b4

/-- Most-loaded minus least-loaded beam. -/
def spread (l : BeamLoad) : ℚ := maxLoad l - minLoad l

/-- Largest duration in a list (0 for the empty list). -/
def maxDur (ds : List ℚ) : ℚ := ds.foldr max 0

/-- Insertion sort of admitted entries by finalized start (line 272). -/
def insertByStart (a : AdmEntry) : List AdmEntry → List AdmEntry
  | [] => [a]
  | b :: bs => if a.final.1 ≤ b.final.1 then a :: b :: bs else b :: insertByStart a bs

def sortByStart : List AdmEntry → List AdmEntry
  | [] => []
  | a :: rest => insertByStart a (sortByStart rest)

/-- A sampled instant is free when it avoids every admitted target's
finalized interval extended by the 20-minute guard (lines 294-303). -/
def isFree (finals : List (ℚ × ℚ)) (t : ℚ) : Bool :=
  finals.all (fun f => decide (t < f.1 - 1200) || decide (f.2 + 1200 < t))

/-- The 2-minute sampling loop of lines 293-307.  The fuel equals the
while loop's iteration count (the number of instants start + 120*k < stop),
so the recursion computes exactly what the loop does. -/
def freeTimesAux (finals : List (ℚ × ℚ)) (stop : ℚ) : ℕ → ℚ → List ℚ
  | 0, _ => []
  | n + 1, t =>
    if t < stop then
      if isFree finals t then t :: freeTimesAux finals stop n (t + 120)
      else freeTimesAux finals stop n (t + 120)
    else []

def freeTimes (finals : List (ℚ × ℚ)) (start stop : ℚ) : List ℚ :=
  freeTimesAux finals stop (⌈(stop - start) / 120⌉).toNat start

/-- The window merge of lines 310-316: lo/hi are the endpoints of the
window currently being extended (the last list element in the source);
instants within tol of the current end extend it, others open a new
window. -/
def buildWindows (tol : ℚ) : ℚ → ℚ → List ℚ → List (ℚ × ℚ)
  | lo, hi, [] => [(lo, hi)]
  | lo, hi, t :: ts =>
    if t - hi ≤ tol then buildWindows tol lo t ts
    else (lo, hi) :: buildWindows tol t t ts

/-- Free windows: seed with the first free instant, merge instants within
120 s, drop windows of nonpositive length (line 317). -/
def buildFreeWindows : List ℚ → List (ℚ × ℚ)
  | [] => []
  | t0 :: rest =>
    (buildWindows 120 t0 t0 (t0 :: rest)).filter (fun w => decide (0 < w.2 - w.1))

def freeWindowsOf (finals : List (ℚ × ℚ)) (start stop : ℚ) : List (ℚ × ℚ) :=
  buildFreeWindows (freeTimes finals start stop)

/-- The busy-window merge of lines 323-331: finalized intervals within 45
minutes of the current end are merged, the merged stop being the max of
the stops. -/
def buildBusy : ℚ → ℚ → List (ℚ × ℚ) → List (ℚ × ℚ)
  | lo, hi, [] => [(lo, hi)]
  | lo, hi, f :: fs =>
    if f.1 - hi ≤ 2700 then buildBusy lo (max hi f.2) fs
    else (lo, hi) :: buildBusy f.1 f.2 fs

def busyWindowsOf (finals : List (ℚ × ℚ)) : List (ℚ × ℚ) :=
  match finals with
  | [] => []
  | f :: _ => buildBusy f.1 f.2 finals

/-- Two finalized intervals 2700 s apart: merged into one busy window by
the 45-minute tolerance, yet the 20-minute guards leave free samples
strictly inside the merged span. -/
def finalsC5 : List (ℚ × ℚ) := [(600, 660), (3360, 3420)]

/-- Floor a timestamp to the whole minute (replace(second=0, microsecond=0);
the time origin is minute-aligned). -/
def floorMinute (t : ℚ) : ℚ := 60 * (⌊t / 60⌋ : ℤ)

/-- Hour-of-day of a timestamp (datetime.hour; the origin is midnight). -/
def hourOfDay (t : ℚ) : ℤ := ⌊t / 3600⌋ % 24

/-- The maintenance command kinds issued by main: iniDP = INIdp.sh,
startTBN = startTBN_split.sh (default TBN mode), tbwHealth =
acquireHealthCheckAndProcess.py (kind A), drsuSelect and drsuPost =
selectBestDRSU.py / postDRSUStatus.py (kind B), lwadbScan = scanDRSUs.sh
(kind C). -/
inductive Cmd
  | iniDP
  | startTBN
  | tbwHealth
  | drsuSelect
  | drsuPost
  | lwadbScan
deriving DecidableEq

/-- Cooldown state: the last firing times of kinds A, B and C
(tTBWLast, tDRSULast, tLWADBLast). -/
structure MaintState where
  tTBWLast : ℚ
  tDRSULast : ℚ
  tLWADBLast : ℚ
deriving DecidableEq

/-- Initial cooldown state (lines 444-446): 12 hours before the nominal
window start, so every kind is immediately eligible. -/
def initMaint (origStart : ℚ) : MaintState :=
  ⟨origStart - 43200, origStart - 43200, origStart - 43200⟩

/-- The 15-minute maintenance walk of lines 462-480 inside a >= 45 min free
window.  The fuel is an upper bound on the while loop's iteration count:
the pointer advances 900 s per iteration and the loop stops past f1 - 360,
so ceil(length/900) + 1 iterations always suffice, and when the fuel runs
out the loop condition is false as well. -/
def maintLoopAux (f1 : ℚ) : ℕ → ℚ → ℚ → ℚ → MaintState → List (ℚ × Cmd) × MaintState
  | 0, _, _, _, st => ([], st)
  | n + 1, tTBW, tDRSU, tLWADB, st =>
    if tTBW ≤ f1 - 360 then
      if st.tTBWLast + 14400 < tTBW then
        let r := maintLoopAux f1 n (tTBW + 900) (tDRSU + 900) (tLWADB + 900)
          { st with tTBWLast := tTBW }
        ((tTBW, Cmd.tbwHealth) :: r.1, r.2)
      else if st.tDRSULast + 21600 < tDRSU then
        let r := maintLoopAux f1 n (tTBW + 900) (tDRSU + 120 + 900) (tLWADB + 900)
          { st with tDRSULast := tDRSU + 120 }
        ((tDRSU, Cmd.drsuSelect) :: (tDRSU + 120, Cmd.drsuPost) :: r.1, r.2)
      else if st.tLWADBLast + 14400 < tLWADB then
        if 8 ≤ hourOfDay tLWADB then
          let r := maintLoopAux f1 n (tTBW + 900) (tDRSU + 900) (tLWADB + 900)
            { st with tLWADBLast := tLWADB + 86400 }
          ((tLWADB, Cmd.lwadbScan) :: r.1, r.2)
        else maintLoopAux f1 n (tTBW + 900) (tDRSU + 900) (tLWADB + 900) st
      else maintLoopAux f1 n (tTBW + 900) (tDRSU + 900) (tLWADB + 900) st
    else ([], st)

/-- Failure of the placement step (the Python ValueError raised by max()
on an empty sequence at line 511). -/
inductive PlaceError
  | emptyMax
deriving DecidableEq

def listMaxQ : List ℚ → Option ℚ
  | [] => none
  | x :: xs => some (xs.foldl max x)

/-- Processing of one free window (lines 447-513).  start is the
INI-adjusted window start, finals the admitted targets' finalized
intervals; isFirst/isLast give the position of the window in the list. -/
def processFreeWindow (start : ℚ) (finals : List (ℚ × ℚ)) (isFirst isLast : Bool)
    (w : ℚ × ℚ) (st : MaintState) : Except PlaceError (List (ℚ × Cmd) × MaintState) :=
  if 2700 ≤ w.2 - w.1 then
    let tbn := if isFirst || decide (180 ≤ |w.1 - start|) then [(w.1, Cmd.startTBN)] else []
    let t0 := floorMinute (w.1 + 240)
    let r := maintLoopAux w.2 ((⌈(w.2 - w.1) / 900⌉).toNat + 1) t0 t0 t0 st
    .ok (tbn ++ r.1, r.2)
  else if 900 ≤ w.2 - w.1 then
    let tTBW := floorMinute (w.1 + 240)
    if st.tTBWLast + 14400 < tTBW then
      .ok ([(tTBW, Cmd.tbwHealth)], { st with tTBWLast := tTBW })
    else if st.tDRSULast + 21600 < tTBW then
      .ok ([(tTBW, Cmd.drsuSelect), (tTBW + 120, Cmd.drsuPost)],
        { st with tDRSULast := tTBW + 120 })
    else .ok ([], st)
  else if 360 ≤ w.2 - w.1 then
    let tDRSU := floorMinute (w.1 + 120)
    if st.tDRSULast + 21600 < tDRSU then
      .ok ([(tDRSU, Cmd.drsuSelect), (tDRSU + 120, Cmd.drsuPost)],
        { st with tDRSULast := tDRSU + 120 })
    else .ok ([], st)
  else if isLast then
    match listMaxQ (finals.map Prod.snd) with
    | none => .error PlaceError.emptyMax
    | some m => if m < w.1 then .ok ([(w.1, Cmd.startTBN)], st) else .ok ([], st)
  else .ok ([], st)

/-- The loop over free windows (lines 447-513) with its index bookkeeping
(i == 0 and i == len(freeWindows) - 1). -/
def placeAux (start : ℚ) (finals : List (ℚ × ℚ)) (n : ℕ) :
    ℕ → List (ℚ × ℚ) → MaintState → Except PlaceError (List (ℚ × Cmd))
  | _, [], _ => .ok []
  | i, w :: ws, st =>
    match processFreeWindow start finals (i == 0) (i == n - 1) w st with
    | .error e => .error e
    | .ok r =>
      match placeAux start finals n (i + 1) ws r.2 with
      | .error e => .error e
      | .ok rest => .ok (r.1 ++ rest)

def placeMaintenance (start : ℚ) (finals ws : List (ℚ × ℚ)) (st : MaintState) :
    Except PlaceError (List (ℚ × Cmd)) :=
  placeAux start finals ws.length 0 ws st

/-- External effects of main's post-build phase, in program order. -/
inductive Effect
  | submitSDFs
  | writeSessionId
  | updateLastObserved
  | backupCatalog
  | rewriteCatalog
  | scheduleAtCommands (n : ℕ)
  | writeRuntimeLog
deriving DecidableEq

/-- Outcome of the post-build phase: either sys.exit with a status code
after the listed effects, or completion with the listed effects. -/
inductive RunOutcome
  | exited (code : ℕ) (effects : List Effect)
  | completed (effects : List Effect)
deriving DecidableEq

/-- Control flow of main's submission and write-back phase (lines 386-545):
schedule_sdfs is called when the run is not a dry run and SDF files exist;
on a reported failure the script prints and exits with status 1 before any
state is advanced; otherwise the session id is written, last-observed MJDs
are updated, the catalog is backed up and rewritten, the at-commands are
scheduled, and the runtime log is appended. -/
def postBuildPhase (dryRun hasFiles submitOk : Bool) (nAt : ℕ) : RunOutcome :=
  if !dryRun && hasFiles then
    if !submitOk then .exited 1 [.submitSDFs]
    else
      .completed [.submitSDFs, .writeSessionId, .updateLastObserved,
        .backupCatalog, .rewriteCatalog, .scheduleAtCommands nAt, .writeRuntimeLog]
  else if !dryRun then
    .completed [.writeSessionId, .updateLastObserved, .backupCatalog,
      .rewriteCatalog, .scheduleAtCommands nAt, .writeRuntimeLog]
  else .completed []

theorem admitStep_inv (start stop : ℚ) (st : AdmitState) (b : Pulsar)
    (h : AdmInv st) : AdmInv (admitStep start stop st b) := by
  unfold admitStep
  split
  · exact h
  · split
    · exact h
    · split
      · exact h
      · cases htr : b.transit with
        | none => exact h
        | some tr =>
          simp only
          split
          · exact h
          · rename_i hnoconf
            constructor
            · rw [List.pairwise_append]
              refine ⟨h.1, List.pairwise_singleton _ _, ?_⟩
              intro a ha e he
              simp only [List.mem_singleton] at he
              subst he
              have hov : overlap4 (get_start_stop b.duration tr true) (paddedOf a) = false := by
                by_contra hb
                exact hnoconf (List.any_eq_true.mpr ⟨a, ha, by
                  cases hx : overlap4 (get_start_stop b.duration tr true) (paddedOf a)
                  · exact absurd hx hb
                  · rfl⟩)
              have hsep := overlap4_false_sep hov
              simpa [paddedSep, paddedOf] using hsep
            · intro a ha
              rcases List.mem_append.mp ha with h' | h'
              · exact h.2 a h'
              · simp only [List.mem_singleton] at h'
                subst h'
                rfl

theorem runAdmission_inv (start stop budget : ℚ) (catalog : List Pulsar) :
    AdmInv (runAdmission start stop budget catalog) := by
  unfold runAdmission
  generalize hst : (⟨[], budget, 0⟩ : AdmitState) = st0
  have h0 : AdmInv st0 := by
    rw [← hst]
    exact ⟨List.Pairwise.nil, by intro a ha; simp at ha⟩
  clear hst
  induction catalog generalizing st0 with
  | nil => exact h0
  | cons b bs ih => exact ih _ (admitStep_inv start stop st0 b h0)

theorem final_vs_padded (e : AdmEntry)
    (h : e.final = get_start_stop e.body.duration e.transit false) :
    e.final.1 = (paddedOf e).1 + 5 ∧ e.final.2 = (paddedOf e).2 - 5 := by
  rw [h]
  unfold paddedOf get_start_stop
  norm_num

/-- C1: for every catalog, window and capacity budget, the finalized
(unpadded) intervals of any two distinct targets admitted by the admission
loop are separated: one target's finalized stop is strictly before the
other's finalized start. -/
theorem C1_admitted_intervals_disjoint (start stop budget : ℚ) (catalog : List Pulsar) :
    ((runAdmission start stop budget catalog).admitted).Pairwise
      (fun a b => a.final.2 < b.final.1 ∨ b.final.2 < a.final.1) := by
  obtain ⟨hpw, hfin⟩ := runAdmission_inv start stop budget catalog
  refine List.Pairwise.imp_of_mem ?_ hpw
  intro a b ha hb hsep
  obtain ⟨ha1, ha2⟩ := final_vs_padded a (hfin a ha)
  obtain ⟨hb1, hb2⟩ := final_vs_padded b (hfin b hb)
  rcases hsep with h | h
  · left; rw [ha2, hb1]; linarith
  · right; rw [hb2, ha1]; linarith

theorem get_start_stop_pad (d tr : ℚ) :
    get_start_stop d tr true = (tr - d / 2 - 5, tr + d / 2 + 5) := rfl

theorem get_start_stop_unpad (d tr : ℚ) :
    get_start_stop d tr false = (tr - d / 2, tr + d / 2) := rfl

/-- Evaluation of the admission run over the one-element catalog [psr1]. -/
theorem st1_eval : st1 = ⟨[⟨psr1, 43200, (41400, 45000)⟩], 996400, 3600⟩ := by
  norm_num [st1, runAdmission, admitStep, should_run, can_run, mjdOf,
    get_start_stop, overlap4, paddedOf, psr1]

/-- C2 counterexample: with the catalog [psr1, psr2] (window day 0, huge
budget), psr2 passes the budget, cadence and visibility checks and its
unpadded interval (45008, 48608) does not touch psr1's finalized unpadded
interval (41400, 45000), yet the admission loop rejects it, because the
conflict test of lines 254-261 compares the padded intervals, which do
overlap (45003 <= 45005). -/
theorem C2_counterexample :
    admitStep 0 86400 st1 psr2 = st1 ∧
    st1.budget = 996400 ∧
    ¬ st1.budget ≤ psr2.duration ∧
    should_run psr2 0 = true ∧
    can_run psr2 0 86400 = true ∧
    st1.admitted.map (fun a => a.final) = [(41400, 45000)] ∧
    get_start_stop psr2.duration 46808 false = (45008, 48608) ∧
    ¬ ((45008 : ℚ) ≤ 45000) := by
  refine ⟨?_, ?_, ?_, ?_, ?_, ?_, ?_, ?_⟩ <;>
    norm_num [st1_eval, admitStep, should_run, can_run, mjdOf, get_start_stop,
      overlap4, paddedOf, psr1, psr2]

/-- C2 (amended): in admission step 4 the conflict test compares the
candidate's PADDED interval (5 s of session padding on each side) against
each already-admitted target's PADDED interval, inclusive boundaries: a
candidate passing steps 1-3 is rejected iff its padded interval overlaps
some admitted target's padded interval. -/
theorem C2_padded_conflict_test (start stop : ℚ) (st : AdmitState) (b : Pulsar) (tr : ℚ)
    (htr : b.transit = some tr)
    (h1 : ¬ st.budget ≤ b.duration)
    (h2 : should_run b start = true)
    (h3 : can_run b start stop = true)
    (hwf : 0 ≤ b.duration)
    (hwfa : ∀ a ∈ st.admitted, 0 ≤ a.body.duration) :
    admitStep start stop st b = st ↔
      ∃ a ∈ st.admitted,
        (get_start_stop b.duration tr true).1 ≤ (paddedOf a).2 ∧
        (paddedOf a).1 ≤ (get_start_stop b.duration tr true).2 := by
  have hcwf : (get_start_stop b.duration tr true).1 ≤ (get_start_stop b.duration tr true).2 := by
    rw [get_start_stop_pad]
    dsimp only
    linarith
  unfold admitStep
  rw [if_neg h1, if_neg (by simp [h2]), if_neg (by simp [h3]), htr]
  simp only
  by_cases hany :
      st.admitted.any (fun a => overlap4 (get_start_stop b.duration tr true) (paddedOf a)) = true
  · rw [if_pos hany]
    constructor
    · intro _
      obtain ⟨a, ha, hov⟩ := List.any_eq_true.mp hany
      have hpwf : (paddedOf a).1 ≤ (paddedOf a).2 := by
        have hda := hwfa a ha
        unfold paddedOf
        rw [get_start_stop_pad]
        dsimp only
        linarith
      obtain ⟨x, y⟩ := overlap_of_overlap4_true hcwf hpwf hov
      exact ⟨a, ha, x, y⟩
    · intro _
      rfl
  · rw [if_neg hany]
    constructor
    · intro h
      exfalso
      have := congrArg (fun s => s.admitted.length) h
      simp at this
    · rintro ⟨a, ha, hx, hy⟩
      exfalso
      exact hany (List.any_eq_true.mpr ⟨a, ha, overlap4_true_of_overlap hx hy⟩)

theorem C2_padded_conflict_test_witness :
    admitStep 0 86400 st1 psr2 = st1 ↔
      ∃ a ∈ st1.admitted,
        (get_start_stop psr2.duration 46808 true).1 ≤ (paddedOf a).2 ∧
        (paddedOf a).1 ≤ (get_start_stop psr2.duration 46808 true).2 :=
  C2_padded_conflict_test 0 86400 st1 psr2 46808 rfl
    (by rw [st1_eval]; norm_num [psr2])
    (by norm_num [should_run, psr2, mjdOf])
    (by norm_num [can_run, psr2, get_start_stop])
    (by norm_num [psr2])
    (by rw [st1_eval]; norm_num [psr1])

theorem admitStep_budget_cases (start stop : ℚ) (st : AdmitState) (b : Pulsar) :
    admitStep start stop st b = st ∨
      (admitStep start stop st b).budget = st.budget - b.duration := by
  unfold admitStep
  split
  · exact Or.inl rfl
  · split
    · exact Or.inl rfl
    · split
      · exact Or.inl rfl
      · cases b.transit with
        | none => exact Or.inl rfl
        | some tr =>
          simp only
          split
          · exact Or.inl rfl
          · exact Or.inr rfl

theorem admitStep_budget_le (start stop : ℚ) (st : AdmitState) (b : Pulsar)
    (hd : 0 ≤ b.duration) : (admitStep start stop st b).budget ≤ st.budget := by
  rcases admitStep_budget_cases start stop st b with h | h
  · rw [h]
  · rw [h]; linarith

/-- C3: a candidate whose duration is greater than or equal to the remaining
budget is rejected (equality included); an admission (a step that changes
the state) decrements the budget by exactly the candidate's duration; and
for catalogs of nonnegative durations the remaining budget is monotonically
non-increasing along the run. -/
theorem C3_capacity_rule :
    (∀ (start stop : ℚ) (st : AdmitState) (b : Pulsar),
        st.budget ≤ b.duration → admitStep start stop st b = st) ∧
    (∀ (start stop : ℚ) (st : AdmitState) (b : Pulsar),
        admitStep start stop st b ≠ st →
        (admitStep start stop st b).budget = st.budget - b.duration) ∧
    (∀ (start stop budget : ℚ) (catalog : List Pulsar),
        (∀ b ∈ catalog, 0 ≤ b.duration) → ∀ n : ℕ,
        (runAdmission start stop budget (catalog.take (n + 1))).budget ≤
          (runAdmission start stop budget (catalog.take n)).budget) := by
  refine ⟨?_, ?_, ?_⟩
  · intro start stop st b h
    unfold admitStep
    rw [if_pos h]
  · intro start stop st b h
    rcases admitStep_budget_cases start stop st b with h' | h'
    · exact absurd h' h
    · exact h'
  · intro start stop budget catalog hcat n
    rw [List.take_succ]
    unfold runAdmission
    rw [List.foldl_append]
    cases hn : catalog[n]? with
    | none => simp
    | some b =>
      simp only [Option.toList_some, List.foldl_cons, List.foldl_nil]
      exact admitStep_budget_le start stop _ b (hcat b (List.getElem?_mem hn))

theorem C3_capacity_rule_witness :
    admitStep 0 86400 ⟨[], 3600, 0⟩ psr1 = ⟨[], 3600, 0⟩ ∧
    (admitStep 0 86400 ⟨[], 1000000, 0⟩ psr1).budget = 1000000 - psr1.duration ∧
    (runAdmission 0 86400 1000000 ([psr1].take (0 + 1))).budget ≤
      (runAdmission 0 86400 1000000 ([psr1].take 0)).budget :=
  ⟨C3_capacity_rule.1 0 86400 ⟨[], 3600, 0⟩ psr1 (by norm_num [psr1]),
   C3_capacity_rule.2.1 0 86400 ⟨[], 1000000, 0⟩ psr1
     (by norm_num [admitStep, should_run, can_run, mjdOf, get_start_stop,
       overlap4, paddedOf, psr1]),
   C3_capacity_rule.2.2 0 86400 1000000 [psr1] (by norm_num [psr1]) 0⟩

theorem foldl_admit_inv (start stop : ℚ) (P : AdmitState → Prop)
    (hstep : ∀ st b, P st → P (admitStep start stop st b)) :
    ∀ (catalog : List Pulsar) (st0 : AdmitState),
      P st0 → P (catalog.foldl (admitStep start stop) st0) := by
  intro catalog
  induction catalog with
  | nil => intro st0 h; exact h
  | cons b bs ih => intro st0 h; exact ih _ (hstep st0 b h)

theorem runAdmission_admitted_body (start stop budget : ℚ) (catalog : List Pulsar) :
    ∀ a ∈ (runAdmission start stop budget catalog).admitted,
      should_run a.body start = true := by
  unfold runAdmission
  refine foldl_admit_inv start stop
    (fun st => ∀ a ∈ st.admitted, should_run a.body start = true) ?_ catalog _ ?_
  · intro st b hP
    unfold admitStep
    split
    · exact hP
    · split
      · exact hP
      · split
        · exact hP
        · rename_i hsr _
          cases htr : b.transit with
          | none => exact hP
          | some tr =>
            simp only
            split
            · exact hP
            · intro a ha
              rcases List.mem_append.mp ha with h' | h'
              · exact hP a h'
              · simp only [List.mem_singleton] at h'
                subst h'
                cases hx : should_run b start with
                | false => exact absurd hx hsr
                | true => rfl
  · intro a ha
    simp at ha

/-- C4: a target is cadence-due exactly when its cadence is positive and the
window-start MJD has reached the last-observed MJD plus the cadence; hence
every admitted target has positive cadence and was due at the window start
(so cadence <= 0, or last-observed + cadence beyond the window start, is
never admitted). -/
theorem C4_cadence_rule :
    (∀ (p : Pulsar) (start : ℚ),
        should_run p start = true ↔
          0 < p.cadence ∧ p.last_mjd + p.cadence ≤ mjdOf start) ∧
    (∀ (start stop budget : ℚ) (catalog : List Pulsar),
        ∀ a ∈ (runAdmission start stop budget catalog).admitted,
          0 < a.body.cadence ∧ a.body.last_mjd + a.body.cadence ≤ mjdOf start) := by
  have hiff : ∀ (p : Pulsar) (start : ℚ),
      should_run p start = true ↔
        0 < p.cadence ∧ p.last_mjd + p.cadence ≤ mjdOf start := by
    intro p start
    unfold should_run
    rw [Bool.and_eq_true, decide_eq_true_eq, decide_eq_true_eq, and_comm]
  refine ⟨hiff, ?_⟩
  intro start stop budget catalog a ha
  exact (hiff a.body start).mp (runAdmission_admitted_body start stop budget catalog a ha)

theorem C4_cadence_rule_witness :
    0 < psr1.cadence ∧ psr1.last_mjd + psr1.cadence ≤ mjdOf 0 :=
  C4_cadence_rule.2 0 86400 1000000 [psr1] ⟨psr1, 43200, (41400, 45000)⟩
    (by norm_num [runAdmission, admitStep, should_run, can_run, mjdOf,
      get_start_stop, overlap4, paddedOf, psr1])

theorem spread3_le (u v w m : ℚ)
    (huv : u ≤ v + m) (hvu : v ≤ u + m) (huw : u ≤ w + m) (hwu : w ≤ u + m)
    (hvw : v ≤ w + m) (hwv : w ≤ v + m) (hm : 0 ≤ m) :
    max (max u v) w - min (min u v) w ≤ m := by
  have h1 : u - m ≤ min (min u v) w :=
    le_min (le_min (by linarith) (by linarith)) (by linarith)
  have h4 : max (max u v) w ≤ min (min u v) w + m := by
    refine max_le (max_le ?_ ?_) ?_
    · have : u - m ≤ min (min u v) w :=
        le_min (le_min (by linarith) (by linarith)) (by linarith)
      linarith
    · have : v - m ≤ min (min u v) w :=
        le_min (le_min (by linarith) (by linarith)) (by linarith)
      linarith
    · have : w - m ≤ min (min u v) w :=
        le_min (le_min (by linarith) (by linarith)) (by linarith)
      linarith
  linarith

theorem pairLe_true_le {a b : ℚ} {i j : ℕ} (h : pairLe (a, i) (b, j) = true) : a ≤ b := by
  simp only [pairLe, Bool.or_eq_true, Bool.and_eq_true, decide_eq_true_eq] at h
  rcases h with h | ⟨h, _⟩
  · exact le_of_lt h
  · exact le_of_eq h

theorem pairLe_true_cases {a b : ℚ} {i j : ℕ} (h : pairLe (a, i) (b, j) = true) :
    a < b ∨ (a = b ∧ i ≤ j) := by
  simpa only [pairLe, Bool.or_eq_true, Bool.and_eq_true, decide_eq_true_eq] using h

theorem pairLe_false_lt {a b : ℚ} {i j : ℕ} (hij : i ≤ j)
    (h : pairLe (a, i) (b, j) = false) : b < a := by
  simp only [pairLe, Bool.or_eq_false_iff, Bool.and_eq_false_iff,
    decide_eq_false_iff_not, not_lt, not_le] at h
  rcases h.2 with h2 | h2
  · exact lt_of_le_of_ne h.1 (fun e => h2 e.symm)
  · exact absurd hij (not_le_of_lt h2)

theorem spread_pair_bound (l : BeamLoad) (M : ℚ) (h : spread l ≤ M) :
    l.b2 ≤ l.b3 + M ∧ l.b3 ≤ l.b2 + M ∧ l.b2 ≤ l.b4 + M ∧ l.b4 ≤ l.b2 + M ∧
      l.b3 ≤ l.b4 + M ∧ l.b4 ≤ l.b3 + M := by
  unfold spread maxLoad minLoad at h
  have h2 : l.b2 ≤ max (max l.b2 l.b3) l.b4 := le_max_of_le_left (le_max_left _ _)
  have h3 : l.b3 ≤ max (max l.b2 l.b3) l.b4 := le_max_of_le_left (le_max_right _ _)
  have h4 : l.b4 ≤ max (max l.b2 l.b3) l.b4 := le_max_right _ _
  have g2 : min (min l.b2 l.b3) l.b4 ≤ l.b2 := le_trans (min_le_left _ _) (min_le_left _ _)
  have g3 : min (min l.b2 l.b3) l.b4 ≤ l.b3 := le_trans (min_le_left _ _) (min_le_right _ _)
  have g4 : min (min l.b2 l.b3) l.b4 ≤ l.b4 := min_le_right _ _
  exact ⟨by linarith, by linarith, by linarith, by linarith, by linarith, by linarith⟩

theorem spread_step (l : BeamLoad) (d : ℚ) (M : ℚ) (hd : 0 ≤ d) (hM : spread l ≤ M) :
    spread (beamAssign l d).2 ≤ max M d := by
  obtain ⟨p23, p32, p24, p42, p34, p43⟩ := spread_pair_bound l M hM
  have hm1 : M ≤ max M d := le_max_left _ _
  have hm2 : d ≤ max M d := le_max_right _ _
  have hm0 : 0 ≤ max M d := le_trans hd hm2
  cases hb34 : pairLe (l.b3, 3) (l.b4, 4) <;>
    cases hb23 : pairLe (l.b2, 2) (l.b3, 3) <;>
      cases hb24 : pairLe (l.b2, 2) (l.b4, 4) <;>
        simp only [beamAssign, sortPairs, insertP, hb34, hb23, hb24, Bool.false_eq_true,
          if_false, if_true, List.map_cons, List.map_nil, List.headI, List.tail_cons,
          addLoad, spread, maxLoad, minLoad, Nat.reduceEqDiff, reduceIte]
  -- goal order: (F,F,F), (F,F,T), (F,T,F), (F,T,T), (T,F,F), (T,F,T), (T,T,F), (T,T,T)
  · have f1 := pairLe_false_lt (by norm_num) hb34
    have f2 := pairLe_false_lt (by norm_num) hb23
    have f3 := pairLe_false_lt (by norm_num) hb24
    exact spread3_le _ _ _ _ (by linarith) (by linarith) (by linarith) (by linarith)
      (by linarith) (by linarith) hm0
  · have f1 := pairLe_false_lt (by norm_num) hb34
    have f2 := pairLe_false_lt (by norm_num) hb23
    have f3 := pairLe_true_le hb24
    exact spread3_le _ _ _ _ (by linarith) (by linarith) (by linarith) (by linarith)
      (by linarith) (by linarith) hm0
  · have f1 := pairLe_false_lt (by norm_num) hb34
    have f2 := pairLe_true_le hb23
    have f3 := pairLe_false_lt (by norm_num) hb24
    exact spread3_le _ _ _ _ (by linarith) (by linarith) (by linarith) (by linarith)
      (by linarith) (by linarith) hm0
  · have f1 := pairLe_false_lt (by norm_num) hb34
    have f2 := pairLe_true_le hb23
    have f3 := pairLe_true_le hb24
    exact spread3_le _ _ _ _ (by linarith) (by linarith) (by linarith) (by linarith)
      (by linarith) (by linarith) hm0
  · have f1 := pairLe_true_le hb34
    have f2 := pairLe_false_lt (by norm_num) hb23
    have f3 := pairLe_false_lt (by norm_num) hb24
    exact spread3_le _ _ _ _ (by linarith) (by linarith) (by linarith) (by linarith)
      (by linarith) (by linarith) hm0
  · have f1 := pairLe_true_le hb34
    have f2 := pairLe_false_lt (by norm_num) hb23
    have f3 := pairLe_true_le hb24
    exact spread3_le _ _ _ _ (by linarith) (by linarith) (by linarith) (by linarith)
      (by linarith) (by linarith) hm0
  · have f1 := pairLe_true_le hb34
    have f2 := pairLe_true_le hb23
    have f3 := pairLe_false_lt (by norm_num) hb24
    exact spread3_le _ _ _ _ (by linarith) (by linarith) (by linarith) (by linarith)
      (by linarith) (by linarith) hm0
  · have f1 := pairLe_true_le hb34
    have f2 := pairLe_true_le hb23
    have f3 := pairLe_true_le hb24
    exact spread3_le _ _ _ _ (by linarith) (by linarith) (by linarith) (by linarith)
      (by linarith) (by linarith) hm0

theorem maxDur_nonneg (ds : List ℚ) : 0 ≤ maxDur ds := by
  induction ds with
  | nil => simp [maxDur]
  | cons d ds ih =>
    simp only [maxDur, List.foldr_cons] at *
    exact le_trans ih (le_max_right _ _)

theorem beamBalance_spread (ds : List ℚ) :
    ∀ (l : BeamLoad) (M : ℚ), spread l ≤ M → (∀ d ∈ ds, 0 ≤ d) →
      spread (beamBalance ds l).2 ≤ max M (maxDur ds) := by
  induction ds with
  | nil =>
    intro l M hM _
    exact le_trans hM (le_max_left _ _)
  | cons d ds ih =>
    intro l M hM hd
    have h1 := spread_step l d M (hd d (List.mem_cons_self d ds)) hM
    have h2 := ih (beamAssign l d).2 (max M d) h1
      (fun x hx => hd x (List.mem_cons_of_mem d hx))
    simp only [beamBalance]
    calc spread (beamBalance ds (beamAssign l d).2).2
        ≤ max (max M d) (maxDur ds) := h2
      _ = max M (maxDur (d :: ds)) := by
          rw [max_assoc]
          rfl

/-- C6: after the beam load balancer processes any prefix of the admitted
list (each duration added to the two least-loaded of the three beams), the
difference between the most-loaded and least-loaded beam's cumulative
duration is at most the largest single duration processed so far
(durations are nonnegative per the data model; maxDur of an empty prefix
is 0). -/
theorem C6_beam_balance_bound (ds : List ℚ) (n : ℕ) (h : ∀ d ∈ ds, 0 ≤ d) :
    spread (loadAfter (ds.take n)) ≤ maxDur (ds.take n) := by
  have h' : ∀ d ∈ ds.take n, 0 ≤ d := fun d hd => h d (List.take_subset n ds hd)
  have hb := beamBalance_spread (ds.take n) ⟨0, 0, 0⟩ 0
    (by norm_num [spread, maxLoad, minLoad]) h'
  unfold loadAfter
  calc spread (beamBalance (ds.take n) ⟨0, 0, 0⟩).2
      ≤ max 0 (maxDur (ds.take n)) := hb
    _ = maxDur (ds.take n) := max_eq_right (maxDur_nonneg _)

theorem C6_beam_balance_bound_witness :
    spread (loadAfter ([3600, 1800].take 2)) ≤ maxDur ([3600, 1800].take 2) :=
  C6_beam_balance_bound [3600, 1800] 2 (by decide)

theorem beamAssign_spec (l : BeamLoad) (d : ℚ) :
    (beamAssign l d).1.1 < (beamAssign l d).1.2 ∧
    (beamAssign l d).1.1 ∈ [2, 3, 4] ∧ (beamAssign l d).1.2 ∈ [2, 3, 4] ∧
    (∀ z ∈ [2, 3, 4], z ≠ (beamAssign l d).1.1 → z ≠ (beamAssign l d).1.2 →
      (getLoad l (beamAssign l d).1.1 < getLoad l z ∨
        (getLoad l (beamAssign l d).1.1 = getLoad l z ∧ (beamAssign l d).1.1 < z)) ∧
      (getLoad l (beamAssign l d).1.2 < getLoad l z ∨
        (getLoad l (beamAssign l d).1.2 = getLoad l z ∧ (beamAssign l d).1.2 < z)) ∧
      getLoad (beamAssign l d).2 z = getLoad l z) ∧
    getLoad (beamAssign l d).2 (beamAssign l d).1.1 =
      getLoad l (beamAssign l d).1.1 + d ∧
    getLoad (beamAssign l d).2 (beamAssign l d).1.2 =
      getLoad l (beamAssign l d).1.2 + d := by
  cases hb34 : pairLe (l.b3, 3) (l.b4, 4) <;>
    cases hb23 : pairLe (l.b2, 2) (l.b3, 3) <;>
      cases hb24 : pairLe (l.b2, 2) (l.b4, 4)
  -- goal order: (F,F,F), (F,F,T), (F,T,F), (F,T,T), (T,F,F), (T,F,T), (T,T,F), (T,T,T)
  · -- sorted [(b4,4),(b3,3),(b2,2)], chosen beams 4 and 3, pair (3,4)
    have hba : beamAssign l d = ((3, 4), ⟨l.b2, l.b3 + d, l.b4 + d⟩) := by
      simp only [beamAssign, sortPairs, insertP, hb34, hb23, hb24, Bool.false_eq_true,
        if_false, List.map_cons, List.map_nil, List.headI, List.tail_cons,
        addLoad, Nat.reduceEqDiff, reduceIte]
      norm_num
    have f2 := pairLe_false_lt (by norm_num) hb23
    have f3 := pairLe_false_lt (by norm_num) hb24
    rw [hba]
    refine ⟨by norm_num, by simp, by simp, ?_, by simp [getLoad], by simp [getLoad]⟩
    intro z hz hz1 hz2
    fin_cases hz
    · exact ⟨by simp only [getLoad, Nat.reduceEqDiff, reduceIte]; exact Or.inl f2,
        by simp only [getLoad, Nat.reduceEqDiff, reduceIte]; exact Or.inl f3,
        by simp [getLoad]⟩
    · simp at hz1
    · simp at hz2
  · -- vacuous ordering: b3 < b2 <= b4 < b3
    exfalso
    have f1 := pairLe_false_lt (by norm_num) hb34
    have f2 := pairLe_false_lt (by norm_num) hb23
    have f3 := pairLe_true_le hb24
    linarith
  · -- sorted [(b4,4),(b2,2),(b3,3)], chosen beams 4 and 2, pair (2,4)
    have hba : beamAssign l d = ((2, 4), ⟨l.b2 + d, l.b3, l.b4 + d⟩) := by
      simp only [beamAssign, sortPairs, insertP, hb34, hb23, hb24, Bool.false_eq_true,
        if_false, if_true, List.map_cons, List.map_nil, List.headI, List.tail_cons,
        addLoad, Nat.reduceEqDiff, reduceIte]
      norm_num
    have f1 := pairLe_false_lt (by norm_num) hb34
    have f3 := pairLe_false_lt (by norm_num) hb24
    rw [hba]
    refine ⟨by norm_num, by simp, by simp, ?_, by simp [getLoad], by simp [getLoad]⟩
    intro z hz hz1 hz2
    fin_cases hz
    · simp at hz1
    · refine ⟨?_, ?_, by simp [getLoad]⟩
      · simp only [getLoad, Nat.reduceEqDiff, reduceIte]
        rcases pairLe_true_cases hb23 with h | ⟨h, -⟩
        · exact Or.inl h
        · exact Or.inr ⟨h, by norm_num⟩
      · simp only [getLoad, Nat.reduceEqDiff, reduceIte]
        exact Or.inl f1
    · simp at hz2
  · -- sorted [(b2,2),(b4,4),(b3,3)], chosen beams 2 and 4, pair (2,4)
    have hba : beamAssign l d = ((2, 4), ⟨l.b2 + d, l.b3, l.b4 + d⟩) := by
      simp only [beamAssign, sortPairs, insertP, hb34, hb23, hb24, Bool.false_eq_true,
        if_false, if_true, List.map_cons, List.map_nil, List.headI, List.tail_cons,
        addLoad, Nat.reduceEqDiff, reduceIte]
      norm_num
    have f1 := pairLe_false_lt (by norm_num) hb34
    rw [hba]
    refine ⟨by norm_num, by simp, by simp, ?_, by simp [getLoad], by simp [getLoad]⟩
    intro z hz hz1 hz2
    fin_cases hz
    · simp at hz1
    · refine ⟨?_, ?_, by simp [getLoad]⟩
      · simp only [getLoad, Nat.reduceEqDiff, reduceIte]
        rcases pairLe_true_cases hb23 with h | ⟨h, -⟩
        · exact Or.inl h
        · exact Or.inr ⟨h, by norm_num⟩
      · simp only [getLoad, Nat.reduceEqDiff, reduceIte]
        exact Or.inl f1
    · simp at hz2
  · -- sorted [(b3,3),(b4,4),(b2,2)], chosen beams 3 and 4, pair (3,4)
    have hba : beamAssign l d = ((3, 4), ⟨l.b2, l.b3 + d, l.b4 + d⟩) := by
      simp only [beamAssign, sortPairs, insertP, hb34, hb23, hb24, Bool.false_eq_true,
        if_false, if_true, List.map_cons, List.map_nil, List.headI, List.tail_cons,
        addLoad, Nat.reduceEqDiff, reduceIte]
      norm_num
    have f2 := pairLe_false_lt (by norm_num) hb23
    have f3 := pairLe_false_lt (by norm_num) hb24
    rw [hba]
    refine ⟨by norm_num, by simp, by simp, ?_, by simp [getLoad], by simp [getLoad]⟩
    intro z hz hz1 hz2
    fin_cases hz
    · exact ⟨by simp only [getLoad, Nat.reduceEqDiff, reduceIte]; exact Or.inl f2,
        by simp only [getLoad, Nat.reduceEqDiff, reduceIte]; exact Or.inl f3,
        by simp [getLoad]⟩
    · simp at hz1
    · simp at hz2
  · -- sorted [(b3,3),(b2,2),(b4,4)], chosen beams 3 and 2, pair (2,3)
    have hba : beamAssign l d = ((2, 3), ⟨l.b2 + d, l.b3 + d, l.b4⟩) := by
      simp only [beamAssign, sortPairs, insertP, hb34, hb23, hb24, Bool.false_eq_true,
        if_false, if_true, List.map_cons, List.map_nil, List.headI, List.tail_cons,
        addLoad, Nat.reduceEqDiff, reduceIte]
      norm_num
    rw [hba]
    refine ⟨by norm_num, by simp, by simp, ?_, by simp [getLoad], by simp [getLoad]⟩
    intro z hz hz1 hz2
    fin_cases hz
    · simp at hz1
    · simp at hz2
    · refine ⟨?_, ?_, by simp [getLoad]⟩
      · simp only [getLoad, Nat.reduceEqDiff, reduceIte]
        rcases pairLe_true_cases hb24 with h | ⟨h, -⟩
        · exact Or.inl h
        · exact Or.inr ⟨h, by norm_num⟩
      · simp only [getLoad, Nat.reduceEqDiff, reduceIte]
        rcases pairLe_true_cases hb34 with h | ⟨h, -⟩
        · exact Or.inl h
        · exact Or.inr ⟨h, by norm_num⟩
  · -- vacuous ordering: b2 <= b3 <= b4 < b2
    exfalso
    have f1 := pairLe_true_le hb34
    have f2 := pairLe_true_le hb23
    have f3 := pairLe_false_lt (by norm_num) hb24
    linarith
  · -- sorted [(b2,2),(b3,3),(b4,4)], chosen beams 2 and 3, pair (2,3)
    have hba : beamAssign l d = ((2, 3), ⟨l.b2 + d, l.b3 + d, l.b4⟩) := by
      simp only [beamAssign, sortPairs, insertP, hb34, hb23, hb24, Bool.false_eq_true,
        if_false, if_true, List.map_cons, List.map_nil, List.headI, List.tail_cons,
        addLoad, Nat.reduceEqDiff, reduceIte]
      norm_num
    rw [hba]
    refine ⟨by norm_num, by simp, by simp, ?_, by simp [getLoad], by simp [getLoad]⟩
    intro z hz hz1 hz2
    fin_cases hz
    · simp at hz1
    · simp at hz2
    · refine ⟨?_, ?_, by simp [getLoad]⟩
      · simp only [getLoad, Nat.reduceEqDiff, reduceIte]
        rcases pairLe_true_cases hb23 with h | ⟨h, -⟩ <;>
          rcases pairLe_true_cases hb34 with g | ⟨g, -⟩
        · exact Or.inl (by linarith)
        · exact Or.inl (by linarith)
        · exact Or.inl (by linarith)
        · exact Or.inr ⟨by linarith, by norm_num⟩
      · simp only [getLoad, Nat.reduceEqDiff, reduceIte]
        rcases pairLe_true_cases hb34 with g | ⟨g, -⟩
        · exact Or.inl g
        · exact Or.inr ⟨g, by norm_num⟩

theorem beamBalance_pairs (ds : List ℚ) :
    ∀ (l : BeamLoad), ∀ pr ∈ (beamBalance ds l).1,
      pr.1 < pr.2 ∧ pr.1 ∈ [2, 3, 4] ∧ pr.2 ∈ [2, 3, 4] := by
  induction ds with
  | nil =>
    intro l pr h
    simp [beamBalance] at h
  | cons d ds ih =>
    intro l pr h
    simp only [beamBalance, List.mem_cons] at h
    rcases h with h | h
    · subst h
      obtain ⟨h1, h2, h3, -⟩ := beamAssign_spec l d
      exact ⟨h1, h2, h3⟩
    · exact ih _ pr h

/-- C7: at each step of the beam balancer (processing the admitted targets
in ascending finalized-start order), the chosen pair consists of the two
beams with lowest cumulative load at that point (ties broken by ascending
beam identifier), stored sorted ascending; the target's duration is added
to exactly those two beams' loads; consequently every assignment produced
over a run is a sorted pair of two distinct beams from {2, 3, 4}. -/
theorem C7_beam_assignment_spec :
    (∀ (l : BeamLoad) (d : ℚ),
      (beamAssign l d).1.1 < (beamAssign l d).1.2 ∧
      (beamAssign l d).1.1 ∈ [2, 3, 4] ∧ (beamAssign l d).1.2 ∈ [2, 3, 4] ∧
      (∀ z ∈ [2, 3, 4], z ≠ (beamAssign l d).1.1 → z ≠ (beamAssign l d).1.2 →
        (getLoad l (beamAssign l d).1.1 < getLoad l z ∨
          (getLoad l (beamAssign l d).1.1 = getLoad l z ∧ (beamAssign l d).1.1 < z)) ∧
        (getLoad l (beamAssign l d).1.2 < getLoad l z ∨
          (getLoad l (beamAssign l d).1.2 = getLoad l z ∧ (beamAssign l d).1.2 < z)) ∧
        getLoad (beamAssign l d).2 z = getLoad l z) ∧
      getLoad (beamAssign l d).2 (beamAssign l d).1.1 =
        getLoad l (beamAssign l d).1.1 + d ∧
      getLoad (beamAssign l d).2 (beamAssign l d).1.2 =
        getLoad l (beamAssign l d).1.2 + d) ∧
    (∀ (ds : List ℚ), ∀ pr ∈ (beamBalance ds ⟨0, 0, 0⟩).1,
      pr.1 < pr.2 ∧ pr.1 ∈ [2, 3, 4] ∧ pr.2 ∈ [2, 3, 4]) :=
  ⟨beamAssign_spec, fun ds => beamBalance_pairs ds ⟨0, 0, 0⟩⟩

theorem C7_beam_assignment_spec_witness :
    ((2, 3) : ℕ × ℕ).1 < ((2, 3) : ℕ × ℕ).2 ∧
    ((2, 3) : ℕ × ℕ).1 ∈ [2, 3, 4] ∧ ((2, 3) : ℕ × ℕ).2 ∈ [2, 3, 4] :=
  C7_beam_assignment_spec.2 [3600] (2, 3) (by decide)

/-- C5 counterexample: for the admitted finalized intervals (600, 660) and
(3360, 3420) (2700 s apart) in the window [0, 3600], the busy-window merge
bridges the 45-minute gap into the single busy window (600, 3420), while
the 20-minute guards leave the free window (1920, 2040) strictly inside
that busy window, so the instant 1920 lies in a free window and in a busy
window at once: free and busy windows are not always disjoint. -/
theorem C5_counterexample :
    freeWindowsOf finalsC5 0 3600 = [(1920, 2040)] ∧
    busyWindowsOf finalsC5 = [(600, 3420)] ∧
    (1920 : ℚ) ≤ 1920 ∧ (1920 : ℚ) ≤ 2040 ∧
    (600 : ℚ) ≤ 1920 ∧ (1920 : ℚ) ≤ 3420 := by
  refine ⟨?_, ?_, by norm_num, by norm_num, by norm_num, by norm_num⟩
  · norm_num [freeWindowsOf, freeTimes, freeTimesAux, isFree, buildFreeWindows,
      buildWindows, finalsC5]
  · norm_num [busyWindowsOf, buildBusy, finalsC5]

theorem freeTimesAux_all_free (finals : List (ℚ × ℚ)) (stop : ℚ) :
    ∀ (n : ℕ) (t x : ℚ), x ∈ freeTimesAux finals stop n t → isFree finals x = true := by
  intro n
  induction n with
  | zero =>
    intro t x h
    simp [freeTimesAux] at h
  | succ n ih =>
    intro t x h
    simp only [freeTimesAux] at h
    split at h
    · split at h
      · rcases List.mem_cons.mp h with h' | h'
        · subst h'
          assumption
        · exact ih _ x h'
      · exact ih _ x h
    · simp at h

theorem freeTimes_all_free (finals : List (ℚ × ℚ)) (start stop : ℚ) :
    ∀ x ∈ freeTimes finals start stop, isFree finals x = true := by
  intro x hx
  exact freeTimesAux_all_free finals stop _ start x hx

theorem buildWindows_cov (S : List ℚ) :
    ∀ (ts : List ℚ) (lo hi : ℚ), (∀ u ∈ ts, u ∈ S) → hi ∈ S →
      (∀ x : ℚ, lo ≤ x → x ≤ hi →
        ∃ t ∈ S, ∃ u ∈ S, t ≤ x ∧ x ≤ u ∧ u - t ≤ 120) →
      ∀ w ∈ buildWindows 120 lo hi ts,
        ∀ x : ℚ, w.1 ≤ x → x ≤ w.2 →
          ∃ t ∈ S, ∃ u ∈ S, t ≤ x ∧ x ≤ u ∧ u - t ≤ 120 := by
  intro ts
  induction ts with
  | nil =>
    intro lo hi hsub hhi hcov w hw
    simp only [buildWindows, List.mem_singleton] at hw
    subst hw
    exact hcov
  | cons t ts ih =>
    intro lo hi hsub hhi hcov w hw
    simp only [buildWindows] at hw
    split at hw
    · rename_i hmerge
      refine ih lo t (fun u hu => hsub u (List.mem_cons_of_mem t hu))
        (hsub t (List.mem_cons_self t ts)) ?_ w hw
      intro x hx1 hx2
      rcases le_or_lt x hi with hxh | hxh
      · exact hcov x hx1 hxh
      · exact ⟨hi, hhi, t, hsub t (List.mem_cons_self t ts), le_of_lt hxh, hx2,
          by linarith⟩
    · rcases List.mem_cons.mp hw with hw' | hw'
      · subst hw'
        exact hcov
      · refine ih t t (fun u hu => hsub u (List.mem_cons_of_mem t hu))
          (hsub t (List.mem_cons_self t ts)) ?_ w hw'
        intro y hy1 hy2
        have hy : y = t := le_antisymm hy2 hy1
        subst hy
        exact ⟨y, hsub y (List.mem_cons_self y ts), y,
          hsub y (List.mem_cons_self y ts), le_refl y, le_refl y, by norm_num⟩

theorem freeWindows_cov (finals : List (ℚ × ℚ)) (start stop : ℚ) :
    ∀ w ∈ freeWindowsOf finals start stop,
      ∀ x : ℚ, w.1 ≤ x → x ≤ w.2 →
        ∃ t ∈ freeTimes finals start stop, ∃ u ∈ freeTimes finals start stop,
          t ≤ x ∧ x ≤ u ∧ u - t ≤ 120 := by
  intro w hw x hx1 hx2
  unfold freeWindowsOf buildFreeWindows at hw
  cases hts : freeTimes finals start stop with
  | nil =>
    rw [hts] at hw
    simp at hw
  | cons t0 rest =>
    rw [hts] at hw
    have hw' := List.mem_of_mem_filter hw
    refine buildWindows_cov (t0 :: rest) (t0 :: rest) t0 t0
      (fun u hu => hu) (List.mem_cons_self _ _) ?_ w hw' x hx1 hx2
    intro y hy1 hy2
    have hy : y = t0 := le_antisymm hy2 hy1
    subst hy
    exact ⟨y, List.mem_cons_self _ _, y, List.mem_cons_self _ _,
      le_refl y, le_refl y, by norm_num⟩

/-- C5 (amended): every free window produced by the interval partitioner is
disjoint from every admitted target's finalized interval (the unmerged busy
extents).  Free windows may still overlap MERGED busy windows, because the
45-minute busy merge can bridge a gap whose interior is more than 20
minutes away from each finalized interval, as the counterexample shows. -/
theorem C5_free_windows_avoid_finals (finals : List (ℚ × ℚ)) (start stop : ℚ) :
    ∀ w ∈ freeWindowsOf finals start stop, ∀ f ∈ finals, ∀ x : ℚ,
      w.1 ≤ x → x ≤ w.2 → ¬ (f.1 ≤ x ∧ x ≤ f.2) := by
  intro w hw f hf x hx1 hx2 hcon
  obtain ⟨hf1, hf2⟩ := hcon
  obtain ⟨t, ht, u, hu, htx, hxu, htu⟩ := freeWindows_cov finals start stop w hw x hx1 hx2
  have htfree := freeTimes_all_free finals start stop t ht
  simp only [isFree, List.all_eq_true, Bool.or_eq_true, decide_eq_true_eq] at htfree
  rcases htfree f hf with h | h
  · linarith
  · linarith

theorem C5_free_windows_avoid_finals_witness :
    ¬ ((600 : ℚ) ≤ 2000 ∧ (2000 : ℚ) ≤ 660) :=
  C5_free_windows_avoid_finals [(600, 660)] 0 3600 (1920, 3480)
    (by norm_num [freeWindowsOf, freeTimes, freeTimesAux, isFree,
      buildFreeWindows, buildWindows])
    (600, 660) (by norm_num) 2000 (by norm_num) (by norm_num)

/-- C9: if the external SDF submission collaborator reports failure (in a
non-dry run with SDF files present, the only case in which it is invoked),
the run exits immediately with status 1 and the only external interaction
is the submission attempt itself: the session id is not written, no
last-observed epoch is updated, the catalog is neither backed up nor
rewritten, and no at-commands are scheduled. -/
theorem C9_submission_failure_aborts (nAt : ℕ) :
    postBuildPhase false true false nAt = RunOutcome.exited 1 [Effect.submitSDFs] := rfl

theorem processFreeWindow_ok_of_not_last (start : ℚ) (finals : List (ℚ × ℚ))
    (isFirst : Bool) (w : ℚ × ℚ) (st : MaintState) :
    ∃ r, processFreeWindow start finals isFirst false w st = .ok r := by
  unfold processFreeWindow
  dsimp only
  split_ifs <;> first
    | exact ⟨_, rfl⟩
    | exact False.elim ‹False›

theorem placeAux_empty_err (start : ℚ) (w : ℚ × ℚ) (hw : w.2 - w.1 < 360) :
    ∀ (ws : List (ℚ × ℚ)) (i n : ℕ) (st : MaintState), n = i + ws.length + 1 →
      placeAux start [] n i (ws ++ [w]) st = .error PlaceError.emptyMax := by
  intro ws
  induction ws with
  | nil =>
    intro i n st hn
    have hlast : (i == n - 1) = true := by
      simp only [List.length_nil] at hn
      have hi : i = n - 1 := by omega
      simp [hi]
    simp only [List.nil_append, placeAux, hlast]
    unfold processFreeWindow
    rw [if_neg (by linarith), if_neg (by linarith), if_neg (by linarith), if_pos rfl]
    simp [listMaxQ]
  | cons v ws ih =>
    intro i n st hn
    have hlast : (i == n - 1) = false := by
      simp only [List.length_cons] at hn
      simp only [beq_eq_false_iff_ne, ne_eq]
      omega
    simp only [List.cons_append, placeAux, hlast]
    obtain ⟨r, hr⟩ := processFreeWindow_ok_of_not_last start [] (i == 0) v st
    rw [hr]
    dsimp only
    rw [List.append_eq, ih (i + 1) n r.2 (by simp only [List.length_cons] at hn; omega)]

/-- C10: when the admitted-target list is empty and the last free window is
shorter than 6 minutes, the maintenance placement fails with the empty-max
error (the Python ValueError raised by max([.. for bdy in bdys_run]) at
line 511) instead of emitting or skipping the session-closing TBN command.
The second conjunct shows the situation is reachable: with no admitted
targets and the window [0, 1860] (31 minutes, of which the 25-minute INI
offset leaves 6), the sampler produces the single 4-minute free window
(1500, 1740). -/
theorem C10_empty_max_error :
    (∀ (start : ℚ) (st : MaintState) (ws : List (ℚ × ℚ)) (w : ℚ × ℚ),
        w.2 - w.1 < 360 →
        placeMaintenance start [] (ws ++ [w]) st = .error PlaceError.emptyMax) ∧
    freeWindowsOf [] 1500 1860 = [(1500, 1740)] := by
  constructor
  · intro start st ws w hw
    unfold placeMaintenance
    exact placeAux_empty_err start w hw ws 0 (ws ++ [w]).length st (by simp)
  · norm_num [freeWindowsOf, freeTimes, freeTimesAux, isFree, buildFreeWindows,
      buildWindows]

theorem C10_empty_max_error_witness :
    placeMaintenance 1500 [] ([] ++ [((1500 : ℚ), (1740 : ℚ))]) (initMaint 0) =
      .error PlaceError.emptyMax :=
  C10_empty_max_error.1 1500 (initMaint 0) [] (1500, 1740) (by norm_num)

theorem floorMinute_le (t : ℚ) : floorMinute t ≤ t := by
  unfold floorMinute
  have h := Int.floor_le (t / 60)
  have h2 : (60 : ℚ) * ((⌊t / 60⌋ : ℤ) : ℚ) ≤ 60 * (t / 60) := by linarith
  calc (60 : ℚ) * ((⌊t / 60⌋ : ℤ) : ℚ) ≤ 60 * (t / 60) := h2
    _ = t := by ring

theorem lt_floorMinute (t : ℚ) : t - 60 < floorMinute t := by
  unfold floorMinute
  have h := Int.sub_one_lt_floor (t / 60)
  have h2 : (60 : ℚ) * (t / 60 - 1) < 60 * ((⌊t / 60⌋ : ℤ) : ℚ) := by linarith
  calc t - 60 = 60 * (t / 60 - 1) := by ring
    _ < _ := h2

theorem maintLoop_stop (f1 : ℚ) (n : ℕ) (a b c : ℚ) (st : MaintState)
    (h1 : ¬ a ≤ f1 - 360) :
    maintLoopAux f1 (n + 1) a b c st = ([], st) := by
  simp only [maintLoopAux, if_neg h1]

theorem maintLoop_fireA (f1 : ℚ) (n : ℕ) (a b c : ℚ) (st : MaintState)
    (h1 : a ≤ f1 - 360) (h2 : st.tTBWLast + 14400 < a) :
    maintLoopAux f1 (n + 1) a b c st =
      ((a, Cmd.tbwHealth) ::
          (maintLoopAux f1 n (a + 900) (b + 900) (c + 900) { st with tTBWLast := a }).1,
        (maintLoopAux f1 n (a + 900) (b + 900) (c + 900) { st with tTBWLast := a }).2) := by
  simp only [maintLoopAux, if_pos h1, if_pos h2]

theorem maintLoop_fireB (f1 : ℚ) (n : ℕ) (a b c : ℚ) (st : MaintState)
    (h1 : a ≤ f1 - 360) (h2 : ¬ st.tTBWLast + 14400 < a)
    (h3 : st.tDRSULast + 21600 < b) :
    maintLoopAux f1 (n + 1) a b c st =
      ((b, Cmd.drsuSelect) :: (b + 120, Cmd.drsuPost) ::
          (maintLoopAux f1 n (a + 900) (b + 120 + 900) (c + 900)
            { st with tDRSULast := b + 120 }).1,
        (maintLoopAux f1 n (a + 900) (b + 120 + 900) (c + 900)
          { st with tDRSULast := b + 120 }).2) := by
  simp only [maintLoopAux, if_pos h1, if_neg h2, if_pos h3]

theorem maintLoop_fireC (f1 : ℚ) (n : ℕ) (a b c : ℚ) (st : MaintState)
    (h1 : a ≤ f1 - 360) (h2 : ¬ st.tTBWLast + 14400 < a)
    (h3 : ¬ st.tDRSULast + 21600 < b) (h4 : st.tLWADBLast + 14400 < c)
    (h5 : 8 ≤ hourOfDay c) :
    maintLoopAux f1 (n + 1) a b c st =
      ((c, Cmd.lwadbScan) ::
          (maintLoopAux f1 n (a + 900) (b + 900) (c + 900)
            { st with tLWADBLast := c + 86400 }).1,
        (maintLoopAux f1 n (a + 900) (b + 900) (c + 900)
          { st with tLWADBLast := c + 86400 }).2) := by
  simp only [maintLoopAux, if_pos h1, if_neg h2, if_neg h3, if_pos h4, if_pos h5]

theorem maintLoop_skipC (f1 : ℚ) (n : ℕ) (a b c : ℚ) (st : MaintState)
    (h1 : a ≤ f1 - 360) (h2 : ¬ st.tTBWLast + 14400 < a)
    (h3 : ¬ st.tDRSULast + 21600 < b) (h4 : st.tLWADBLast + 14400 < c)
    (h5 : ¬ 8 ≤ hourOfDay c) :
    maintLoopAux f1 (n + 1) a b c st =
      maintLoopAux f1 n (a + 900) (b + 900) (c + 900) st := by
  simp only [maintLoopAux, if_pos h1, if_neg h2, if_neg h3, if_pos h4, if_neg h5]

/-- C8: processing a free window of length 50 minutes with the initial
cooldown state (no maintenance kind fired within the 12-hour lookback
before the nominal window start) emits exactly one kind-A health-check
command, timestamped at the window start plus 4 minutes floored to the
whole minute; no second kind-A command is emitted in that window.  The
hypothesis places the free window at or after the INI-adjusted schedule
start, as the sampler guarantees. -/
theorem C8_single_health_check (origStart f0 : ℚ) (isFirst isLast : Bool)
    (finals : List (ℚ × ℚ)) (h : origStart + 1500 ≤ f0) :
    ∃ r, processFreeWindow (origStart + 1500) finals isFirst isLast
        (f0, f0 + 3000) (initMaint origStart) = .ok r ∧
      r.1.filter (fun c => decide (c.2 = Cmd.tbwHealth)) =
        [(floorMinute (f0 + 240), Cmd.tbwHealth)] := by
  have ht0u : floorMinute (f0 + 240) ≤ f0 + 240 := floorMinute_le _
  have ht0l : f0 + 180 < floorMinute (f0 + 240) := by
    have := lt_floorMinute (f0 + 240)
    linarith
  set t0 := floorMinute (f0 + 240) with ht0def
  have hfuel : ((⌈((f0, f0 + 3000).2 - (f0, f0 + 3000).1) / 900⌉).toNat + 1) = 4 + 1 := by
    have hq : ((f0, f0 + 3000).2 - (f0, f0 + 3000).1) / 900 = 10 / 3 := by
      show (f0 + 3000 - f0) / 900 = 10 / 3
      ring
    rw [hq]
    have hc : (⌈(10 / 3 : ℚ)⌉ : ℤ) = 4 := by norm_num [Int.ceil_eq_iff]
    rw [hc]
    rfl
  unfold processFreeWindow
  rw [if_pos (show (2700 : ℚ) ≤ (f0, f0 + 3000).2 - (f0, f0 + 3000).1 by
    show (2700 : ℚ) ≤ f0 + 3000 - f0
    linarith)]
  dsimp only
  rw [hfuel, ← ht0def,
    show initMaint origStart =
      (⟨origStart - 43200, origStart - 43200, origStart - 43200⟩ : MaintState) from rfl]
  rw [maintLoop_fireA (f0 + 3000) 4 t0 t0 t0
    ⟨origStart - 43200, origStart - 43200, origStart - 43200⟩
    (by linarith) (by dsimp only; linarith)]
  dsimp only
  rw [show (4 : ℕ) = 3 + 1 from rfl]
  rw [maintLoop_fireB (f0 + 3000) 3 (t0 + 900) (t0 + 900) (t0 + 900)
    ⟨t0, origStart - 43200, origStart - 43200⟩
    (by linarith) (by dsimp only; push_neg; linarith) (by dsimp only; linarith)]
  dsimp only
  rw [show (3 : ℕ) = 2 + 1 from rfl]
  rcases le_or_lt 8 (hourOfDay (t0 + 900 + 900)) with hC | hC
  · rw [maintLoop_fireC (f0 + 3000) 2 (t0 + 900 + 900) (t0 + 900 + 120 + 900)
      (t0 + 900 + 900) ⟨t0, t0 + 900 + 120, origStart - 43200⟩
      (by linarith) (by dsimp only; push_neg; linarith)
      (by dsimp only; push_neg; linarith) (by dsimp only; linarith) hC]
    dsimp only
    rw [show (2 : ℕ) = 1 + 1 from rfl]
    rw [maintLoop_stop (f0 + 3000) 1 (t0 + 900 + 900 + 900) (t0 + 900 + 120 + 900 + 900)
      (t0 + 900 + 900 + 900) ⟨t0, t0 + 900 + 120, t0 + 900 + 900 + 86400⟩
      (by push_neg; linarith)]
    dsimp only
    refine ⟨_, rfl, ?_⟩
    cases hb : (isFirst || decide (180 ≤ |f0 - (origStart + 1500)|)) <;>
      simp [hb, List.filter_append, List.filter_cons, List.filter_nil]
  · rw [maintLoop_skipC (f0 + 3000) 2 (t0 + 900 + 900) (t0 + 900 + 120 + 900)
      (t0 + 900 + 900) ⟨t0, t0 + 900 + 120, origStart - 43200⟩
      (by linarith) (by dsimp only; push_neg; linarith)
      (by dsimp only; push_neg; linarith) (by dsimp only; linarith) (not_le.mpr hC)]
    rw [show (2 : ℕ) = 1 + 1 from rfl]
    rw [maintLoop_stop (f0 + 3000) 1 (t0 + 900 + 900 + 900) (t0 + 900 + 120 + 900 + 900)
      (t0 + 900 + 900 + 900) ⟨t0, t0 + 900 + 120, origStart - 43200⟩
      (by push_neg; linarith)]
    dsimp only
    refine ⟨_, rfl, ?_⟩
    cases hb : (isFirst || decide (180 ≤ |f0 - (origStart + 1500)|)) <;>
      simp [hb, List.filter_append, List.filter_cons, List.filter_nil]

theorem C8_single_health_check_witness :
    ∃ r, processFreeWindow ((0 : ℚ) + 1500) [] true false
        ((1500 : ℚ), (1500 : ℚ) + 3000) (initMaint 0) = .ok r ∧
      r.1.filter (fun c => decide (c.2 = Cmd.tbwHealth)) =
        [(floorMinute ((1500 : ℚ) + 240), Cmd.tbwHealth)] :=
  C8_single_health_check 0 1500 true false [] (by norm_num)
